import Mathlib

/-!
Verification development for the salaries ETL core (`salaries.py`):
the SQL-schema extractor `parse_sql_schema` and the data normalizer
`clean_data`.  Cell values are modelled by an inductive `Value` type
(a single canonical `null` stands for None/NaN/NaT), data frames by a
header plus row-major cell lists, and the two regular expressions of
`parse_sql_schema` by executable character scanners that reproduce the
Python `re` semantics for those concrete patterns (both patterns are
backtracking-free because their adjacent character classes are
disjoint, so maximal-munch scanning is exact).
-/

namespace SalariesETL

/-- A cell value.  `null` is the single canonical missing value
(Python `None` / pandas `NaN` / `NaT` are unified, matching the
normalizer's final `df.where(df.notnull(), None)` canonicalisation).
Numbers are modelled as rationals (covering both int and float cells;
float rounding plays no role in any claim). -/
inductive Value where
  | null : Value
  | str (s : String) : Value
  | num (q : Rat) : Value
  | bool (b : Bool) : Value
  | date (d : String) : Value
  deriving DecidableEq

/-- `df.replace(["Not Provided", ""], None)` applied to one cell:
a cell equal to either sentinel string becomes `null`.
(The replacement-with-null reading documented by the program is
modelled; it applies uniformly to every selected cell.) -/
def replaceSentinels (v : Value) : Value :=
  if v = Value.str "Not Provided" ∨ v = Value.str "" then Value.null else v

/-- Python truthiness `bool(x)` of a cell: `None`, the empty string,
zero and `False` are falsy, everything else is truthy. -/
def truthy : Value → Bool
  | Value.null => false
  | Value.str s => s ≠ ""
  | Value.num q => q ≠ 0
  | Value.bool b => b
  | Value.date _ => true

/-- Value of a list of decimal digit characters. -/
def digitsToNat (l : List Char) : Nat :=
  l.foldl (fun a c => 10 * a + (c.toNat - 48)) 0

/-- Decimal-literal parsing used to model `pd.to_numeric`: an optional
sign, an integer part and an optional fractional part.  (Exotic inputs
accepted by pandas such as exponent notation are out of modelled
scope; no claim depends on the exact accepted language, only on
success producing a number and failure producing `null`.) -/
def parseNum (s : String) : Option Rat :=
  let signSplit : Bool × List Char :=
    match s.data with
    | '-' :: r => (true, r)
    | '+' :: r => (false, r)
    | r => (false, r)
  let neg := signSplit.1
  let body := signSplit.2
  let ip := body.takeWhile Char.isDigit
  let rest := body.dropWhile Char.isDigit
  let mk : Nat → Nat → Nat → Option Rat := fun ipv fpv fl =>
    let mag : Rat := (ipv : Rat) + (fpv : Rat) / ((10 : Rat) ^ fl)
    some (if neg then -mag else mag)
  match rest with
  | [] => if ip = [] then none else mk (digitsToNat ip) 0 0
  | '.' :: fp =>
    if fp.all Char.isDigit ∧ (ip ≠ [] ∨ fp ≠ []) then
      mk (digitsToNat ip) (digitsToNat fp) fp.length
    else none
  | _ => none

/-- `pd.to_numeric(cell, errors="coerce")` on one cell: `null` stays
`null`, numbers stay, booleans become 0/1, strings are parsed with
failures degrading to `null` (never an error), other values degrade to
`null`. -/
def toNumeric : Value → Value
  | Value.null => Value.null
  | Value.str s =>
    match parseNum s with
    | some q => Value.num q
    | none => Value.null
  | Value.num q => Value.num q
  | Value.bool b => Value.num (if b then 1 else 0)
  | Value.date _ => Value.null

/-- Calendar-date parsing used to model `pd.to_datetime(errors="coerce")`
on a string cell, abstracted to ISO `YYYY-MM-DD` shape; no claim
depends on the precise accepted formats, only on success versus
`null`-on-failure. -/
def parseDate (s : String) : Option String :=
  match s.splitOn "-" with
  | [y, m, d] =>
    if y.data.all Char.isDigit ∧ m.data.all Char.isDigit ∧ d.data.all Char.isDigit
        ∧ y.data ≠ [] ∧ m.data ≠ [] ∧ d.data ≠ [] then some s
    else none
  | _ => none

/-- `pd.to_datetime(cell, errors="coerce")` on one cell: `null` stays
`null`, parse failures degrade to `null`.  (Numeric epoch-offset inputs
are out of modelled scope and degrade to `null`; raw CSV cells and
sentinel-replaced cells never hit that branch in any claim.) -/
def dateCoerce : Value → Value
  | Value.null => Value.null
  | Value.str s =>
    match parseDate s with
    | some d => Value.date d
    | none => Value.null
  | Value.num _ => Value.null
  | Value.bool _ => Value.null
  | Value.date d => Value.date d

/-- Textual rendering of a rational cell, standing for Python `str()`
of the underlying number.  The exact rendering is irrelevant to every
claim; what matters is that the result is a (non-null) string. -/
def ratRender (q : Rat) : String :=
  if q.den = 1 then toString q.num else toString q.num ++ "/" ++ toString q.den

/-- `df[col].astype(str)` on one cell: Python stringification.
Crucially, `None` is stringified to the literal string `"None"` —
`astype(str)` does NOT preserve missing values. -/
def strCoerce : Value → Value
  | Value.null => Value.str "None"
  | Value.str s => Value.str s
  | Value.num q => Value.str (ratRender q)
  | Value.bool b => Value.str (if b then "True" else "False")
  | Value.date d => Value.str d

/-- The normalizer's type classes (spec §3 `TypeClass`). -/
inductive TypeClass where
  | INTEGER : TypeClass
  | FLOATING : TypeClass
  | BOOLEAN : TypeClass
  | DATE : TypeClass
  | TEXT : TypeClass
  | PASSTHROUGH : TypeClass
  deriving DecidableEq

/-- The branch `clean_data` selects for a recorded type string: the
exact if/elif chain of `clean_data` (string equality against the
tuples `('INT','INTEGER','BIGINT')` etc.; no fallthrough branch means
PASSTHROUGH). -/
def classify (dtype : String) : TypeClass :=
  if dtype = "INT" ∨ dtype = "INTEGER" ∨ dtype = "BIGINT" then TypeClass.INTEGER
  else if dtype = "FLOAT" ∨ dtype = "NUMERIC" ∨ dtype = "DECIMAL" then TypeClass.FLOATING
  else if dtype = "BOOLEAN" then TypeClass.BOOLEAN
  else if dtype = "DATE" then TypeClass.DATE
  else if dtype = "TEXT" then TypeClass.TEXT
  else TypeClass.PASSTHROUGH

/-- The per-cell effect of `clean_data`'s type-conversion chain for a
column whose recorded type is `dtype` (`astype(bool)` is elementwise
Python truthiness on an object column). -/
def coerceValue (dtype : String) (v : Value) : Value :=
  if dtype = "INT" ∨ dtype = "INTEGER" ∨ dtype = "BIGINT" then toNumeric v
  else if dtype = "FLOAT" ∨ dtype = "NUMERIC" ∨ dtype = "DECIMAL" then toNumeric v
  else if dtype = "BOOLEAN" then Value.bool (truthy v)
  else if dtype = "DATE" then dateCoerce v
  else if dtype = "TEXT" then strCoerce v
  else v

/-- `pd.notnull` on one cell. -/
def notnullB (v : Value) : Bool := v ≠ Value.null

/-- `df.where(df.notnull(), None)` on one cell: non-null cells are
kept, missing markers become the canonical `null`. -/
def maskNull (v : Value) : Value :=
  if notnullB v then v else Value.null

/-- The complete per-cell pipeline of `clean_data` after column
selection: sentinel replacement, then the type-directed coercion, then
the final null canonicalisation. -/
def cellPipe (dtype : String) (v : Value) : Value :=
  maskNull (coerceValue dtype (replaceSentinels v))

/-- A pandas `DataFrame`, row-major: a header of column names and rows
of cells.  (Frames are rectangular in the program; out-of-range lookups
during projection default to `null`, which no claim exercises.) -/
structure DataFrame where
  header : List String
  rows : List (List Value)
  deriving DecidableEq

/-- First index of column `c`, scanning `l` with a running counter:
the position pandas label-based selection resolves `c` to. -/
def findIdxAux (c : String) : List String → Nat → Option Nat
  | [], _ => none
  | h :: t, k => if h = c then some k else findIdxAux c t (k + 1)

/-- Position of each requested column in the header; `none` (pandas
`KeyError`) as soon as one is absent — the `df[schema.keys()]`
projection step. -/
def selIdxs (header : List String) : List String → Option (List Nat)
  | [] => some []
  | c :: cs =>
    match findIdxAux c header 0, selIdxs header cs with
    | some i, some is => some (i :: is)
    | _, _ => none

/-- `df[cols].copy()`: select exactly the columns `cols`, in that
order; fails iff some requested column is missing from the header. -/
def selectCols (df : DataFrame) (cols : List String) : Option DataFrame :=
  (selIdxs df.header cols).map fun idxs =>
    ⟨cols, df.rows.map fun r => idxs.map fun i => r.getD i Value.null⟩

/-- `df.replace(["Not Provided", ""], None)` over the whole frame. -/
def replaceFrame (df : DataFrame) : DataFrame :=
  ⟨df.header, df.rows.map (List.map replaceSentinels)⟩

/-- The `for col, dtype in schema.items(): df[col] = ...` conversion
loop.  After selection the frame's columns are exactly the schema's
columns in schema order (with unique names, as produced by the parser),
so the by-name column assignments coincide with this positional zip. -/
def coerceFrame (schema : List (String × String)) (df : DataFrame) : DataFrame :=
  ⟨df.header, df.rows.map fun r =>
    List.zipWith (fun (cd : String × String) v => coerceValue cd.2 v) schema r⟩

/-- `df.where(df.notnull(), None)` over the whole frame. -/
def maskFrame (df : DataFrame) : DataFrame :=
  ⟨df.header, df.rows.map (List.map maskNull)⟩

/-- `clean_data(df, schema)`: column projection (KeyError → `none`),
sentinel replacement, per-column type coercion, null
canonicalisation. -/
def cleanData (df : DataFrame) (schema : List (String × String)) : Option DataFrame :=
  (selectCols df (schema.map Prod.fst)).map fun s =>
    maskFrame (coerceFrame schema (replaceFrame s))

/-- Cell of row `i`, column `j`. -/
def cellAt (df : DataFrame) (i j : Nat) : Option Value :=
  (df.rows[i]?).bind fun r => r[j]?

/-- A heap of data-frame objects, for stating what `clean_data`
mutates: references are indices into the frame list. -/
structure Heap where
  frames : List DataFrame
  deriving DecidableEq

/-- Dereference (dangling references yield an empty frame; the frame
theorem only dereferences live ones). -/
def Heap.getF (h : Heap) (r : Nat) : DataFrame :=
  h.frames.getD r ⟨[], []⟩

/-- In-place update of the object behind reference `r`. -/
def Heap.setF (h : Heap) (r : Nat) (d : DataFrame) : Heap :=
  ⟨h.frames.set r d⟩

/-- Allocate a fresh object, returning its reference. -/
def Heap.alloc (h : Heap) (d : DataFrame) : Heap × Nat :=
  (⟨h.frames ++ [d]⟩, h.frames.length)

/-- `clean_data` as a heap program, tracking which object each
statement mutates: `df[...].copy()` allocates a fresh frame, the
`inplace=True` replace and the column assignments mutate that copy,
and `df.where(...)` allocates the returned frame.  The caller's frame
`r` is never written. -/
def cleanDataHeap (h : Heap) (r : Nat) (schema : List (String × String)) :
    Heap × Option Nat :=
  let df := h.getF r
  match selectCols df (schema.map Prod.fst) with
  | none => (h, none)
  | some sel =>
    let a1 := h.alloc sel
    let h1 := a1.1
    let rc := a1.2
    let h2 := h1.setF rc (replaceFrame (h1.getF rc))
    let h3 := h2.setF rc (coerceFrame schema (h2.getF rc))
    let a2 := h3.alloc (maskFrame (h3.getF rc))
    (a2.1, some a2.2)

/-- Python `\w` (ASCII fragment, as used by every identifier in the
claims). -/
def isWordChar (c : Char) : Bool := c.isAlphanum || c = '_'

/-- Python `\s`. -/
def isSpaceChar (c : Char) : Bool :=
  c = ' ' || c = '\t' || c = '\n' || c = '\r' || c = '\x0b' || c = '\x0c'

/-- Character class `[\w\(\)]` of the column regex's type token. -/
def isTypeChar (c : Char) : Bool := isWordChar c || c = '(' || c = ')'

/-- One attempt of the column pattern `^\s*(\w+)\s+([\w\(\)]+)` at the
current position (the `^` anchor is handled by the scanner): maximal
runs of `\s*`, `(\w+)`, `\s+`, `([\w\(\)]+)`.  Since the adjacent
classes are disjoint, greedy maximal munch is exactly the regex
semantics.  Returns the two captures and the remainder after the
match. -/
def tryColMatch (cs : List Char) : Option (String × String × List Char) :=
  let cs1 := cs.dropWhile isSpaceChar
  let w1 := cs1.takeWhile isWordChar
  let cs2 := cs1.dropWhile isWordChar
  let sp := cs2.takeWhile isSpaceChar
  let cs3 := cs2.dropWhile isSpaceChar
  let w2 := cs3.takeWhile isTypeChar
  let cs4 := cs3.dropWhile isTypeChar
  if w1 = [] ∨ sp = [] ∨ w2 = [] then none
  else some (⟨w1⟩, ⟨w2⟩, cs4)

/-- `re.finditer` of the MULTILINE column pattern, fuelled for
structural recursion (fuel is always the character count).  `atStart`
records whether the current position satisfies the `^` anchor (string
start or just after a newline); after a successful match scanning
resumes at the match end, which never sits just after a newline
because a match ends in a type character. -/
def scanColsF : Nat → List Char → Bool → List (String × String)
  | 0, _, _ => []
  | _ + 1, [], _ => []
  | fuel + 1, c :: rest, atStart =>
    if atStart then
      match tryColMatch (c :: rest) with
      | some (n, t, rest2) => (n, t) :: scanColsF fuel rest2 false
      | none => scanColsF fuel rest (c = '\n')
    else scanColsF fuel rest (c = '\n')

/-- All matches of `^\s*(\w+)\s+([\w\(\)]+)` in MULTILINE mode. -/
def scanCols (cs : List Char) (atStart : Bool) : List (String × String) :=
  scanColsF cs.length cs atStart

/-- Case-insensitive literal prefix match (the IGNORECASE
`CREATE TABLE ` literal). -/
def dropPrefixCI : List Char → List Char → Option (List Char)
  | [], cs => some cs
  | _ :: _, [] => none
  | p :: ps, c :: cs => if c.toLower = p.toLower then dropPrefixCI ps cs else none

/-- The non-greedy DOTALL capture `(.*?)\);`: everything up to the
first `)` immediately followed by `;` (or `none` if no such pair
occurs). -/
def findBody : List Char → Option (List Char)
  | [] => none
  | c :: rest =>
    if c = ')' ∧ rest.head? = some ';' then some []
    else (findBody rest).map (c :: ·)

/-- One attempt of `CREATE TABLE (\w+)\s*\((.*?)\);` at the current
position: the case-insensitive literal, the table name, optional
whitespace, `(`, and the lazily captured body.  Again every adjacency
is deterministic, so no backtracking arises. -/
def tryTableMatch (cs : List Char) : Option (String × List Char) :=
  match dropPrefixCI "CREATE TABLE ".data cs with
  | none => none
  | some cs1 =>
    let w := cs1.takeWhile isWordChar
    let cs2 := cs1.dropWhile isWordChar
    let cs3 := cs2.dropWhile isSpaceChar
    if w = [] then none
    else
      match cs3 with
      | [] => none
      | c :: cs4 => if c = '(' then (findBody cs4).map (fun b => (⟨w⟩, b)) else none

/-- `re.search` of the table pattern: leftmost successful attempt. -/
def searchTable : List Char → Option (String × List Char)
  | [] => none
  | c :: rest =>
    match tryTableMatch (c :: rest) with
    | some r => some r
    | none => searchTable rest

/-- `col_match.group(2).split(' ')[0].upper()`: the part of the type
token before the first space (a no-op, since the token's character
class admits no space), uppercased. -/
def getBaseType (t : String) : String :=
  ⟨(t.data.takeWhile (fun c => c ≠ ' ')).map Char.toUpper⟩

/-- `schema[col_name] = col_type` on an insertion-ordered dict
(`OrderedDict`): an existing key keeps its position and gets the new
value, a new key is appended.  (Keys are unique in any list this is
folded over, so updating every matching entry coincides with the dict
update.) -/
def odInsert (sch : List (String × String)) (n v : String) : List (String × String) :=
  if n ∈ sch.map Prod.fst then
    sch.map fun p => if p.1 = n then (p.1, v) else p
  else sch ++ [(n, v)]

/-- The `for col_match in column_pattern.finditer(...)` loop body over
all matches. -/
def buildSchema (ms : List (String × String)) : List (String × String) :=
  ms.foldl (fun sch m => odInsert sch m.1 (getBaseType m.2)) []

/-- `parse_sql_schema` on DDL text (file reading elided): locate the
first `CREATE TABLE name (body);` match (ValueError → `none`), then
collect `(column, base type)` per column-pattern match in order. -/
def parseSqlSchema (sql : String) : Option (List (String × String)) :=
  (searchTable sql.data).map fun nb => scanCols nb.2 true |> buildSchema

/-- Characters of one column definition `<name> <type>` as laid out in
a canonical DDL rendering. -/
def colEntryChars (n t : String) : List Char :=
  n.data ++ ' ' :: t.data

/-- Body lines of a canonical DDL: one comma-separated column
definition per line, two-space indented, final newline. -/
def entriesChars : List (String × String) → List Char
  | [] => ['\n']
  | [p] => colEntryChars p.1 p.2 ++ ['\n']
  | p :: ps => colEntryChars p.1 p.2 ++ ',' :: '\n' :: ' ' :: ' ' :: entriesChars ps

/-- The captured statement body for a canonical DDL. -/
def bodyChars (cols : List (String × String)) : List Char :=
  '\n' :: ' ' :: ' ' :: entriesChars cols

/-- A canonical `CREATE TABLE t (...);` DDL text declaring `cols` in
order, one definition per line. -/
def ddlChars (cols : List (String × String)) : List Char :=
  "CREATE TABLE t (".data ++ bodyChars cols ++ ");".data

/-- Well-formed column declarations: names are nonempty identifier
strings, type tokens are nonempty `[\w()]` strings. -/
def goodCols (cols : List (String × String)) : Prop :=
  ∀ p ∈ cols,
    (p.1.data ≠ [] ∧ ∀ c ∈ p.1.data, isWordChar c = true) ∧
    (p.2.data ≠ [] ∧ ∀ c ∈ p.2.data, isTypeChar c = true)

instance : DecidablePred goodCols := fun _ => by
  unfold goodCols; infer_instance

end SalariesETL

namespace SalariesETL

/-! ### Per-cell facts about the normalizer -/

theorem coerceValue_cases (d : String) (v : Value) :
    (classify d = TypeClass.INTEGER → coerceValue d v = toNumeric v) ∧
    (classify d = TypeClass.FLOATING → coerceValue d v = toNumeric v) ∧
    (classify d = TypeClass.BOOLEAN → coerceValue d v = Value.bool (truthy v)) ∧
    (classify d = TypeClass.DATE → coerceValue d v = dateCoerce v) ∧
    (classify d = TypeClass.TEXT → coerceValue d v = strCoerce v) ∧
    (classify d = TypeClass.PASSTHROUGH → coerceValue d v = v) := by
  unfold classify coerceValue
  split_ifs <;> simp

theorem replaceSentinels_empty : replaceSentinels (Value.str "") = Value.null := by decide

theorem replaceSentinels_np : replaceSentinels (Value.str "Not Provided") = Value.null := by
  decide

theorem maskNull_ne {v : Value} (h : v ≠ Value.null) : maskNull v = v := by
  simp [maskNull, notnullB, h]

theorem maskNull_null : maskNull Value.null = Value.null := rfl

theorem coerceValue_boolean (v : Value) :
    coerceValue "BOOLEAN" v = Value.bool (truthy v) := by
  unfold coerceValue
  rw [if_neg (by decide), if_neg (by decide), if_pos rfl]

theorem coerceValue_text (v : Value) : coerceValue "TEXT" v = strCoerce v := by
  unfold coerceValue
  rw [if_neg (by decide), if_neg (by decide), if_neg (by decide), if_neg (by decide),
    if_pos rfl]

theorem cellPipe_boolean (v : Value) :
    cellPipe "BOOLEAN" v = Value.bool (truthy (replaceSentinels v)) := by
  rw [cellPipe, coerceValue_boolean, maskNull_ne (by intro h; cases h)]

theorem strCoerce_is_str (v : Value) : ∃ s, strCoerce v = Value.str s := by
  cases v <;> exact ⟨_, rfl⟩

theorem cellPipe_text (v : Value) :
    cellPipe "TEXT" v = strCoerce (replaceSentinels v) := by
  rw [cellPipe, coerceValue_text]
  obtain ⟨s, hs⟩ := strCoerce_is_str (replaceSentinels v)
  rw [hs, maskNull_ne (by intro h; cases h)]

/-! ### Structure of `cleanData` -/

theorem pipe_rows (schema : List (String × String)) :
    ∀ r : List Value,
      List.map maskNull
          (List.zipWith (fun (cd : String × String) v => coerceValue cd.2 v) schema
            (List.map replaceSentinels r)) =
        List.zipWith (fun (cd : String × String) v => cellPipe cd.2 v) schema r := by
  induction schema with
  | nil => intro r; simp
  | cons cd tl ih =>
    intro r
    cases r with
    | nil => simp
    | cons v vr => simp [cellPipe, ih vr]

theorem pipe_rows_map (schema : List (String × String)) :
    ∀ rows : List (List Value),
      List.map (List.map maskNull)
          (List.map (fun r =>
              List.zipWith (fun (cd : String × String) v => coerceValue cd.2 v) schema r)
            (List.map (List.map replaceSentinels) rows)) =
        List.map (fun r =>
          List.zipWith (fun (cd : String × String) v => cellPipe cd.2 v) schema r) rows := by
  intro rows
  induction rows with
  | nil => simp
  | cons r rs ih =>
    simp only [List.map_cons, List.cons.injEq]
    exact ⟨pipe_rows schema r, ih⟩

theorem cleanData_some {df : DataFrame} {schema : List (String × String)} {sel : DataFrame}
    (h : selectCols df (schema.map Prod.fst) = some sel) :
    cleanData df schema =
      some ⟨sel.header, sel.rows.map fun r =>
        List.zipWith (fun (cd : String × String) v => cellPipe cd.2 v) schema r⟩ := by
  simp only [cleanData, h, Option.map_some', maskFrame, coerceFrame, replaceFrame,
    Option.some.injEq, DataFrame.mk.injEq, true_and]
  exact pipe_rows_map schema sel.rows

theorem zipWith_get? {α β γ : Type} (f : α → β → γ) :
    ∀ (as : List α) (bs : List β) (j : Nat) (a : α) (b : β),
      as[j]? = some a → bs[j]? = some b →
      (List.zipWith f as bs)[j]? = some (f a b) := by
  intro as
  induction as with
  | nil => intro bs j a b ha; simp at ha
  | cons x xs ih =>
    intro bs j a b ha hb
    cases bs with
    | nil => simp at hb
    | cons y ys =>
      cases j with
      | zero =>
        simp only [List.getElem?_cons_zero, Option.some.injEq] at ha hb
        simp [ha, hb]
      | succ k =>
        simp only [List.getElem?_cons_succ] at ha hb
        simpa using ih ys k a b ha hb

theorem cleanData_cellAt {df : DataFrame} {schema : List (String × String)}
    {sel out : DataFrame} {i j : Nat} {cd : String × String} {v : Value}
    (hsel : selectCols df (schema.map Prod.fst) = some sel)
    (hclean : cleanData df schema = some out)
    (hcd : schema[j]? = some cd)
    (hv : cellAt sel i j = some v) :
    cellAt out i j = some (cellPipe cd.2 v) := by
  have h2 := cleanData_some hsel
  rw [hclean] at h2
  have hout : out = ⟨sel.header, sel.rows.map fun r =>
      List.zipWith (fun (cd : String × String) v => cellPipe cd.2 v) schema r⟩ := by
    exact Option.some.inj h2
  cases hr : sel.rows[i]? with
  | none => simp [cellAt, hr] at hv
  | some r =>
    simp only [cellAt, hr, Option.some_bind] at hv
    have : out.rows[i]? = some (List.zipWith
        (fun (cd : String × String) v => cellPipe cd.2 v) schema r) := by
      rw [hout]
      simpa using congrArg (Option.map _) hr
    simp only [cellAt, this, Option.some_bind]
    exact zipWith_get? _ schema r j cd v hcd hv

end SalariesETL

namespace SalariesETL

/-! ### Column projection: success and failure -/

theorem findIdxAux_none_iff (c : String) :
    ∀ (l : List String) (k : Nat), findIdxAux c l k = none ↔ c ∉ l := by
  intro l
  induction l with
  | nil => intro k; simp [findIdxAux]
  | cons h t ih =>
    intro k
    by_cases hh : h = c
    · subst hh
      simp [findIdxAux]
    · simp only [findIdxAux, if_neg hh, List.mem_cons, ih]
      constructor
      · rintro hn (rfl | hm)
        · exact hh rfl
        · exact hn hm
      · intro hn hm
        exact hn (Or.inr hm)

theorem selIdxs_none_iff (header : List String) :
    ∀ cols : List String, selIdxs header cols = none ↔ ∃ c ∈ cols, c ∉ header := by
  intro cols
  induction cols with
  | nil => simp [selIdxs]
  | cons c cs ih =>
    simp only [selIdxs]
    cases h1 : findIdxAux c header 0 with
    | none =>
      constructor
      · intro _
        exact ⟨c, List.mem_cons_self c cs, (findIdxAux_none_iff c header 0).mp h1⟩
      · intro _; rfl
    | some i =>
      have hc : c ∈ header := by
        by_contra hcn
        rw [(findIdxAux_none_iff c header 0).mpr hcn] at h1
        cases h1
      cases h2 : selIdxs header cs with
      | none =>
        constructor
        · intro _
          obtain ⟨d, hd1, hd2⟩ := ih.mp h2
          exact ⟨d, List.mem_cons_of_mem c hd1, hd2⟩
        · intro _; rfl
      | some is =>
        constructor
        · intro h; cases h
        · rintro ⟨d, hd1, hd2⟩
          exfalso
          rcases List.mem_cons.mp hd1 with rfl | hm
          · exact hd2 hc
          · have hn : selIdxs header cs = none := ih.mpr ⟨d, hm, hd2⟩
            rw [h2] at hn
            cases hn

theorem selectCols_none_iff (df : DataFrame) (cols : List String) :
    selectCols df cols = none ↔ ∃ c ∈ cols, c ∉ df.header := by
  simp only [selectCols, Option.map_eq_none']
  exact selIdxs_none_iff df.header cols

theorem selectCols_header {df : DataFrame} {cols : List String} {sel : DataFrame}
    (h : selectCols df cols = some sel) : sel.header = cols := by
  simp only [selectCols] at h
  cases hs : selIdxs df.header cols with
  | none => rw [hs] at h; cases h
  | some idxs =>
    rw [hs, Option.map_some'] at h
    rw [← Option.some.inj h]

theorem selectCols_rows {df : DataFrame} {cols : List String} {sel : DataFrame}
    (h : selectCols df cols = some sel) :
    ∃ idxs : List Nat,
      sel.rows = df.rows.map fun r => idxs.map fun i => r.getD i Value.null := by
  simp only [selectCols] at h
  cases hs : selIdxs df.header cols with
  | none => rw [hs] at h; cases h
  | some idxs =>
    rw [hs, Option.map_some'] at h
    exact ⟨idxs, by rw [← Option.some.inj h]⟩

/-! ### Heap lemmas for the frame property -/

theorem getD_append_len (d dflt : DataFrame) :
    ∀ l : List DataFrame, (l ++ [d]).getD l.length dflt = d := by
  intro l
  induction l with
  | nil => rfl
  | cons x xs ih => simp [ih]

theorem getD_append_lt (d dflt : DataFrame) :
    ∀ (l : List DataFrame) (r : Nat), r < l.length →
      (l ++ [d]).getD r dflt = l.getD r dflt := by
  intro l
  induction l with
  | nil => intro r hr; cases hr
  | cons x xs ih =>
    intro r hr
    cases r with
    | zero => rfl
    | succ k => simpa using ih k (by simpa using hr)

theorem getD_set_eq (d dflt : DataFrame) :
    ∀ (l : List DataFrame) (r : Nat), r < l.length → (l.set r d).getD r dflt = d := by
  intro l
  induction l with
  | nil => intro r hr; cases hr
  | cons x xs ih =>
    intro r hr
    cases r with
    | zero => rfl
    | succ k => simpa using ih k (by simpa using hr)

theorem getD_set_ne (d dflt : DataFrame) :
    ∀ (l : List DataFrame) (r q : Nat), q ≠ r → (l.set r d).getD q dflt = l.getD q dflt := by
  intro l
  induction l with
  | nil => intro r q _; simp
  | cons x xs ih =>
    intro r q hq
    cases r with
    | zero =>
      cases q with
      | zero => exact absurd rfl hq
      | succ j => rfl
    | succ k =>
      cases q with
      | zero => rfl
      | succ j => simpa using ih k j (by omega)

end SalariesETL

namespace SalariesETL

/-! ### Character-class facts -/

theorem space_cases {c : Char} (h : isSpaceChar c = true) :
    c = ' ' ∨ c = '\t' ∨ c = '\n' ∨ c = '\r' ∨ c = '\x0b' ∨ c = '\x0c' := by
  simp only [isSpaceChar, Bool.or_eq_true, decide_eq_true_eq] at h
  tauto

theorem word_not_space {c : Char} (h : isWordChar c = true) : isSpaceChar c = false := by
  cases hs : isSpaceChar c with
  | false => rfl
  | true =>
    exfalso
    rcases space_cases hs with rfl | rfl | rfl | rfl | rfl | rfl <;>
      exact absurd h (by decide)

theorem type_not_space {c : Char} (h : isTypeChar c = true) : isSpaceChar c = false := by
  cases hs : isSpaceChar c with
  | false => rfl
  | true =>
    exfalso
    rcases space_cases hs with rfl | rfl | rfl | rfl | rfl | rfl <;>
      exact absurd h (by decide)

/-! ### takeWhile / dropWhile over structured lists -/

theorem takeWhile_all_not {p : Char → Bool} :
    ∀ (xs : List Char) (y : Char) (ys : List Char),
      (∀ c ∈ xs, p c = true) → p y = false →
      List.takeWhile p (xs ++ y :: ys) = xs := by
  intro xs
  induction xs with
  | nil =>
    intro y ys _ hy
    simp [List.takeWhile_cons, hy]
  | cons a as ih =>
    intro y ys hall hy
    have ha : p a = true := hall a (List.mem_cons_self a as)
    simp only [List.cons_append, List.takeWhile_cons, ha, if_true, List.cons.injEq, true_and]
    exact ih y ys (fun c hc => hall c (List.mem_cons_of_mem a hc)) hy

theorem dropWhile_all_not {p : Char → Bool} :
    ∀ (xs : List Char) (y : Char) (ys : List Char),
      (∀ c ∈ xs, p c = true) → p y = false →
      List.dropWhile p (xs ++ y :: ys) = y :: ys := by
  intro xs
  induction xs with
  | nil =>
    intro y ys _ hy
    simp [List.dropWhile_cons, hy]
  | cons a as ih =>
    intro y ys hall hy
    have ha : p a = true := hall a (List.mem_cons_self a as)
    simp only [List.cons_append, List.dropWhile_cons, ha, if_true]
    exact ih y ys (fun c hc => hall c (List.mem_cons_of_mem a hc)) hy

theorem dropWhile_all_append {p : Char → Bool} :
    ∀ (xs : List Char) (x : List Char),
      (∀ c ∈ xs, p c = true) →
      List.dropWhile p (xs ++ x) = List.dropWhile p x := by
  intro xs
  induction xs with
  | nil => intro x _; rfl
  | cons a as ih =>
    intro x hall
    have ha : p a = true := hall a (List.mem_cons_self a as)
    simp only [List.cons_append, List.dropWhile_cons, ha, if_true]
    exact ih x (fun c hc => hall c (List.mem_cons_of_mem a hc))

theorem takeWhile_all_nil {p : Char → Bool} :
    ∀ xs : List Char, (∀ c ∈ xs, p c = true) → List.takeWhile p xs = xs := by
  intro xs
  induction xs with
  | nil => intro _; rfl
  | cons a as ih =>
    intro hall
    have ha : p a = true := hall a (List.mem_cons_self a as)
    simp only [List.takeWhile_cons, ha, if_true, List.cons.injEq, true_and]
    exact ih (fun c hc => hall c (List.mem_cons_of_mem a hc))

theorem dropWhile_all_nil {p : Char → Bool} :
    ∀ xs : List Char, (∀ c ∈ xs, p c = true) → List.dropWhile p xs = [] := by
  intro xs
  induction xs with
  | nil => intro _; rfl
  | cons a as ih =>
    intro hall
    have ha : p a = true := hall a (List.mem_cons_self a as)
    simp only [List.dropWhile_cons, ha, if_true]
    exact ih (fun c hc => hall c (List.mem_cons_of_mem a hc))

theorem dropWhile_length_le (p : Char → Bool) (l : List Char) :
    (List.dropWhile p l).length ≤ l.length := by
  conv_rhs => rw [← List.takeWhile_append_dropWhile (p := p) (l := l)]
  rw [List.length_append]
  omega

end SalariesETL

namespace SalariesETL

/-! ### The column-pattern scanner -/

theorem tryColMatch_length {cs : List Char} {n t : String} {rest2 : List Char}
    (h : tryColMatch cs = some (n, t, rest2)) : rest2.length < cs.length := by
  simp only [tryColMatch] at h
  split at h
  · cases h
  · rename_i hcond
    push_neg at hcond
    obtain ⟨h1, h2, h3⟩ := hcond
    have e1 := congrArg List.length
      (List.takeWhile_append_dropWhile (p := isSpaceChar) (l := cs))
    have e2 := congrArg List.length
      (List.takeWhile_append_dropWhile (p := isWordChar) (l := cs.dropWhile isSpaceChar))
    have e3 := congrArg List.length
      (List.takeWhile_append_dropWhile (p := isSpaceChar)
        (l := (cs.dropWhile isSpaceChar).dropWhile isWordChar))
    have e4 := congrArg List.length
      (List.takeWhile_append_dropWhile (p := isTypeChar)
        (l := ((cs.dropWhile isSpaceChar).dropWhile isWordChar).dropWhile isSpaceChar))
    simp only [List.length_append] at e1 e2 e3 e4
    have hr : rest2 =
        (((cs.dropWhile isSpaceChar).dropWhile isWordChar).dropWhile
          isSpaceChar).dropWhile isTypeChar := by
      have := Option.some.inj h
      exact (congrArg (fun p : String × String × List Char => p.2.2) this).symm
    have l1 : 0 < ((cs.dropWhile isSpaceChar).takeWhile isWordChar).length :=
      List.length_pos.mpr h1
    have l2 : 0 <
        (((cs.dropWhile isSpaceChar).dropWhile isWordChar).takeWhile isSpaceChar).length :=
      List.length_pos.mpr h2
    have l3 : 0 <
        ((((cs.dropWhile isSpaceChar).dropWhile isWordChar).dropWhile
          isSpaceChar).takeWhile isTypeChar).length :=
      List.length_pos.mpr h3
    rw [hr]
    omega

theorem tryColMatch_allspace {cs : List Char} (h : ∀ c ∈ cs, isSpaceChar c = true) :
    tryColMatch cs = none := by
  simp only [tryColMatch, dropWhile_all_nil cs h, List.takeWhile_nil]
  simp

theorem scanColsF_cons_true (f : Nat) (c : Char) (rest : List Char) :
    scanColsF (f + 1) (c :: rest) true =
      match tryColMatch (c :: rest) with
      | some (n, t, rest2) => (n, t) :: scanColsF f rest2 false
      | none => scanColsF f rest (c = '\n') := rfl

theorem scanColsF_cons_false (f : Nat) (c : Char) (rest : List Char) :
    scanColsF (f + 1) (c :: rest) false = scanColsF f rest (c = '\n') := rfl

theorem scanColsF_fuel :
    ∀ (f1 : Nat) (cs : List Char) (b : Bool) (f2 : Nat),
      cs.length ≤ f1 → cs.length ≤ f2 → scanColsF f1 cs b = scanColsF f2 cs b := by
  intro f1
  induction f1 with
  | zero =>
    intro cs b f2 h1 _
    have : cs = [] := List.length_eq_zero.mp (Nat.le_zero.mp h1)
    subst this
    cases f2 <;> rfl
  | succ f ih =>
    intro cs b f2 h1 h2
    cases cs with
    | nil => cases f2 <;> rfl
    | cons c rest =>
      cases f2 with
      | zero => simp at h2
      | succ f2a =>
        have hr1 : rest.length ≤ f := by simp at h1; omega
        have hr2 : rest.length ≤ f2a := by simp at h2; omega
        cases b with
        | false =>
          rw [scanColsF_cons_false, scanColsF_cons_false]
          exact ih rest _ f2a hr1 hr2
        | true =>
          rw [scanColsF_cons_true, scanColsF_cons_true]
          cases hm : tryColMatch (c :: rest) with
          | none =>
            exact ih rest _ f2a hr1 hr2
          | some trip =>
            obtain ⟨n, t, rest2⟩ := trip
            have hlen := tryColMatch_length hm
            simp only [List.length_cons] at hlen
            show (n, t) :: scanColsF f rest2 false = (n, t) :: scanColsF f2a rest2 false
            rw [ih rest2 false f2a (by omega) (by omega)]

theorem scanCols_cons_false (c : Char) (rest : List Char) :
    scanCols (c :: rest) false = scanCols rest (c = '\n') := rfl

theorem scanCols_cons_nomatch {c : Char} {rest : List Char}
    (h : tryColMatch (c :: rest) = none) :
    scanCols (c :: rest) true = scanCols rest (c = '\n') := by
  have e : scanCols (c :: rest) true =
      match tryColMatch (c :: rest) with
      | some (n, t, rest2) => (n, t) :: scanColsF rest.length rest2 false
      | none => scanColsF rest.length rest (c = '\n') := rfl
  rw [e, h]
  rfl

theorem scanCols_cons_match {c : Char} {rest : List Char} {n t : String}
    {rest2 : List Char} (h : tryColMatch (c :: rest) = some (n, t, rest2)) :
    scanCols (c :: rest) true = (n, t) :: scanCols rest2 false := by
  have e : scanCols (c :: rest) true =
      match tryColMatch (c :: rest) with
      | some (n, t, rest2) => (n, t) :: scanColsF rest.length rest2 false
      | none => scanColsF rest.length rest (c = '\n') := rfl
  rw [e, h]
  have hlen := tryColMatch_length h
  simp only [List.length_cons] at hlen
  show (n, t) :: scanColsF rest.length rest2 false = (n, t) :: scanCols rest2 false
  rw [scanColsF_fuel rest.length rest2 false rest2.length (by omega) (by omega)]
  rfl

theorem scanCols_match_ne {cs : List Char} {n t : String} {rest2 : List Char}
    (hne : cs ≠ []) (h : tryColMatch cs = some (n, t, rest2)) :
    scanCols cs true = (n, t) :: scanCols rest2 false := by
  cases cs with
  | nil => exact absurd rfl hne
  | cons c rest => exact scanCols_cons_match h

theorem scan_allspace :
    ∀ (cs : List Char) (b : Bool), (∀ c ∈ cs, isSpaceChar c = true) → scanCols cs b = [] := by
  intro cs
  induction cs with
  | nil => intro b _; rfl
  | cons c rest ih =>
    intro b h
    have hrest : ∀ d ∈ rest, isSpaceChar d = true :=
      fun d hd => h d (List.mem_cons_of_mem c hd)
    cases b with
    | false => rw [scanCols_cons_false]; exact ih _ hrest
    | true =>
      rw [scanCols_cons_nomatch (tryColMatch_allspace h)]
      exact ih _ hrest

end SalariesETL

namespace SalariesETL

/-! ### Scanning a canonical column definition -/

theorem tryColMatch_entry (pre : List Char) (n t : String) (sep : Char) (tail : List Char)
    (hpre : ∀ c ∈ pre, isSpaceChar c = true)
    (hn1 : n.data ≠ []) (hn2 : ∀ c ∈ n.data, isWordChar c = true)
    (ht1 : t.data ≠ []) (ht2 : ∀ c ∈ t.data, isTypeChar c = true)
    (hsep : isTypeChar sep = false) :
    tryColMatch (pre ++ (n.data ++ ' ' :: (t.data ++ sep :: tail))) =
      some (n, t, sep :: tail) := by
  obtain ⟨nc, nr, hnd⟩ : ∃ nc nr, n.data = nc :: nr := by
    cases hd : n.data with
    | nil => exact absurd hd hn1
    | cons a l => exact ⟨a, l, rfl⟩
  obtain ⟨tc, tr, htd⟩ : ∃ tc tr, t.data = tc :: tr := by
    cases hd : t.data with
    | nil => exact absurd hd ht1
    | cons a l => exact ⟨a, l, rfl⟩
  have e1 : List.dropWhile isSpaceChar (pre ++ (n.data ++ ' ' :: (t.data ++ sep :: tail)))
      = n.data ++ ' ' :: (t.data ++ sep :: tail) := by
    rw [dropWhile_all_append pre _ hpre, hnd, List.cons_append]
    rw [List.dropWhile_cons_of_neg]
    simp only [word_not_space (hn2 nc (by rw [hnd]; exact List.mem_cons_self nc nr)),
      Bool.false_eq_true, not_false_iff]
  have e2 : List.takeWhile isWordChar (n.data ++ ' ' :: (t.data ++ sep :: tail)) = n.data :=
    takeWhile_all_not n.data ' ' _ hn2 (by decide)
  have e3 : List.dropWhile isWordChar (n.data ++ ' ' :: (t.data ++ sep :: tail))
      = ' ' :: (t.data ++ sep :: tail) :=
    dropWhile_all_not n.data ' ' _ hn2 (by decide)
  have e4 : List.takeWhile isSpaceChar (' ' :: (t.data ++ sep :: tail)) = [' '] := by
    rw [htd, List.cons_append, show (' ' :: (tc :: (tr ++ sep :: tail)))
      = [' '] ++ tc :: (tr ++ sep :: tail) from rfl]
    exact takeWhile_all_not [' '] tc _ (by intro c hc; simp at hc; subst hc; rfl)
      (type_not_space (ht2 tc (by rw [htd]; exact List.mem_cons_self tc tr)))
  have e5 : List.dropWhile isSpaceChar (' ' :: (t.data ++ sep :: tail))
      = t.data ++ sep :: tail := by
    rw [htd, List.cons_append, show (' ' :: (tc :: (tr ++ sep :: tail)))
      = [' '] ++ tc :: (tr ++ sep :: tail) from rfl]
    exact dropWhile_all_not [' '] tc _ (by intro c hc; simp at hc; subst hc; rfl)
      (type_not_space (ht2 tc (by rw [htd]; exact List.mem_cons_self tc tr)))
  have e6 : List.takeWhile isTypeChar (t.data ++ sep :: tail) = t.data :=
    takeWhile_all_not t.data sep _ ht2 hsep
  have e7 : List.dropWhile isTypeChar (t.data ++ sep :: tail) = sep :: tail :=
    dropWhile_all_not t.data sep _ ht2 hsep
  simp only [tryColMatch, e1, e2, e3, e4, e5, e6, e7]
  rw [if_neg (by push_neg; exact ⟨hn1, by simp, ht1⟩)]

/-- Canonical bodies of well-formed column lists contain no semicolon
(hence no `");"` occurrence before the final one). -/
theorem semi_not_entries : ∀ cols : List (String × String), goodCols cols →
    ';' ∉ entriesChars cols := by
  intro cols
  induction cols with
  | nil =>
    intro _
    simp [entriesChars]
  | cons p ps ih =>
    intro hgood
    have hp := hgood p (List.mem_cons_self p ps)
    have hps : goodCols ps := fun q hq => hgood q (List.mem_cons_of_mem p hq)
    have hent : ';' ∉ colEntryChars p.1 p.2 := by
      simp only [colEntryChars, List.mem_append, List.mem_cons, not_or]
      refine ⟨fun hm => ?_, by decide, fun hm => ?_⟩
      · exact absurd (hp.1.2 ';' hm) (by decide)
      · exact absurd (hp.2.2 ';' hm) (by decide)
    cases ps with
    | nil =>
      simp only [entriesChars, List.mem_append, List.mem_cons, not_or]
      exact ⟨by simpa using hent, by decide, by simp⟩
    | cons q qs =>
      simp only [entriesChars, List.mem_append, List.mem_cons, not_or]
      refine ⟨by simpa using hent, by decide, by decide, by decide, by decide, ?_⟩
      exact ih hps

theorem scan_entries : ∀ cols : List (String × String), goodCols cols →
    ∀ pre : List Char, (∀ c ∈ pre, isSpaceChar c = true) →
      scanCols (pre ++ entriesChars cols) true = cols := by
  intro cols
  induction cols with
  | nil =>
    intro _ pre hpre
    apply scan_allspace
    intro c hc
    rcases List.mem_append.mp hc with hm | hm
    · exact hpre c hm
    · simp only [entriesChars, List.mem_singleton] at hm
      subst hm; rfl
  | cons p ps ih =>
    intro hgood pre hpre
    obtain ⟨n, t⟩ := p
    have hp := hgood (n, t) (List.mem_cons_self _ ps)
    have hps : goodCols ps := fun q hq => hgood q (List.mem_cons_of_mem _ hq)
    cases ps with
    | nil =>
      have hshape : pre ++ entriesChars [(n, t)]
          = pre ++ (n.data ++ ' ' :: (t.data ++ '\n' :: [])) := by
        simp [entriesChars, colEntryChars]
      rw [hshape]
      rw [scanCols_match_ne (by simp [hp.1.1])
        (tryColMatch_entry pre n t '\n' [] hpre hp.1.1 hp.1.2 hp.2.1 hp.2.2 (by decide))]
      rw [show ('\n' :: ([] : List Char)) = ['\n'] from rfl]
      rw [scanCols_cons_false]
      rfl
    | cons q qs =>
      have hshape : pre ++ entriesChars ((n, t) :: q :: qs)
          = pre ++ (n.data ++ ' ' :: (t.data ++ ',' ::
              ('\n' :: ' ' :: ' ' :: entriesChars (q :: qs)))) := by
        simp [entriesChars, colEntryChars]
      rw [hshape]
      rw [scanCols_match_ne (by simp [hp.1.1])
        (tryColMatch_entry pre n t ','
          ('\n' :: ' ' :: ' ' :: entriesChars (q :: qs))
          hpre hp.1.1 hp.1.2 hp.2.1 hp.2.2 (by decide))]
      rw [scanCols_cons_false]
      rw [show (decide (',' = '\n')) = false from rfl]
      rw [scanCols_cons_false]
      rw [show (decide ('\n' = '\n')) = true from rfl]
      rw [show (' ' :: ' ' :: entriesChars (q :: qs))
        = [' ', ' '] ++ entriesChars (q :: qs) from rfl]
      rw [ih hps [' ', ' '] (by intro c hc; simp at hc; subst hc; rfl)]

end SalariesETL

namespace SalariesETL

/-! ### The table pattern on canonical DDL -/

theorem findBody_append :
    ∀ (b : List Char) (r : List Char), ';' ∉ b →
      findBody (b ++ ')' :: ';' :: r) = some b := by
  intro b
  induction b with
  | nil =>
    intro r _
    simp [findBody]
  | cons c bs ih =>
    intro r hsemi
    have hc : ';' ∉ bs := fun hm => hsemi (List.mem_cons_of_mem c hm)
    have hcond : ¬(c = ')' ∧ (bs ++ ')' :: ';' :: r).head? = some ';') := by
      rintro ⟨rfl, hhd⟩
      cases bs with
      | nil => simp at hhd
      | cons d ds =>
        simp only [List.cons_append, List.head?_cons, Option.some.injEq] at hhd
        exact hsemi (by rw [hhd]; exact List.mem_cons_of_mem _ (List.mem_cons_self ';' ds))
    simp only [List.cons_append, findBody, List.append_eq, if_neg hcond, ih r hc,
      Option.map_some']

theorem dropPrefixCI_self : ∀ (pre cs : List Char), dropPrefixCI pre (pre ++ cs) = some cs := by
  intro pre
  induction pre with
  | nil => intro cs; rfl
  | cons c cp ih =>
    intro cs
    simp only [List.cons_append, dropPrefixCI, if_pos rfl]
    exact ih cs

theorem semi_not_body {cols : List (String × String)} (h : goodCols cols) :
    ';' ∉ bodyChars cols := by
  simp only [bodyChars, List.mem_cons, not_or]
  exact ⟨by decide, by decide, by decide, semi_not_entries cols h⟩

theorem tryTableMatch_ddl (cols : List (String × String)) (hsemi : ';' ∉ bodyChars cols) :
    tryTableMatch (ddlChars cols) = some ("t", bodyChars cols) := by
  have hsplit : ddlChars cols =
      "CREATE TABLE ".data ++ ('t' :: ' ' :: '(' :: (bodyChars cols ++ [')', ';'])) := by
    rw [ddlChars, show "CREATE TABLE t (".data
      = "CREATE TABLE ".data ++ ['t', ' ', '('] from rfl,
      show ");".data = [')', ';'] from rfl]
    simp [List.append_assoc]
  rw [hsplit]
  simp only [tryTableMatch, dropPrefixCI_self]
  have e2 : List.takeWhile isWordChar ('t' :: ' ' :: '(' :: (bodyChars cols ++ [')', ';']))
      = ['t'] := by
    rw [List.takeWhile_cons_of_pos (by decide), List.takeWhile_cons_of_neg (by decide)]
  have e3 : List.dropWhile isWordChar ('t' :: ' ' :: '(' :: (bodyChars cols ++ [')', ';']))
      = ' ' :: '(' :: (bodyChars cols ++ [')', ';']) := by
    rw [List.dropWhile_cons_of_pos (by decide), List.dropWhile_cons_of_neg (by decide)]
  have e4 : List.dropWhile isSpaceChar (' ' :: '(' :: (bodyChars cols ++ [')', ';']))
      = '(' :: (bodyChars cols ++ [')', ';']) := by
    rw [List.dropWhile_cons_of_pos (by decide), List.dropWhile_cons_of_neg (by decide)]
  simp only [e2, e3, e4]
  rw [if_neg (by simp)]
  rw [show (bodyChars cols ++ [')', ';']) = bodyChars cols ++ ')' :: ';' :: [] from rfl]
  simp only [if_pos rfl, findBody_append (bodyChars cols) [] hsemi, Option.map_some']
  rw [if_pos trivial]

theorem searchTable_pos0 {cs : List Char} {r : String × List Char}
    (hne : cs ≠ []) (h : tryTableMatch cs = some r) : searchTable cs = some r := by
  cases cs with
  | nil => exact absurd rfl hne
  | cons c rest => simp only [searchTable, h]

theorem ddlChars_ne_nil (cols : List (String × String)) : ddlChars cols ≠ [] := by
  rw [ddlChars, show "CREATE TABLE t (".data = 'C' :: "REATE TABLE t (".data from rfl]
  simp

/-! ### The OrderedDict fold -/

theorem buildSchema_aux :
    ∀ (ms : List (String × String)) (acc : List (String × String)),
      (∀ p ∈ ms, p.1 ∉ acc.map Prod.fst) → (ms.map Prod.fst).Nodup →
      ms.foldl (fun sch m => odInsert sch m.1 (getBaseType m.2)) acc
        = acc ++ ms.map (fun p => (p.1, getBaseType p.2)) := by
  intro ms
  induction ms with
  | nil => intro acc _ _; simp
  | cons m ms ih =>
    intro acc hdis hnd
    obtain ⟨n, t⟩ := m
    simp only [List.map_cons, List.nodup_cons] at hnd
    have hstep : odInsert acc n (getBaseType t) = acc ++ [(n, getBaseType t)] := by
      rw [odInsert, if_neg (hdis (n, t) (List.mem_cons_self _ ms))]
    simp only [List.foldl_cons, hstep]
    rw [ih (acc ++ [(n, getBaseType t)]) ?hdis2 hnd.2]
    · simp
    case hdis2 =>
      intro p hp
      simp only [List.map_append, List.mem_append, not_or]
      refine ⟨hdis p (List.mem_cons_of_mem _ hp), ?_⟩
      simp only [List.map_cons, List.map_nil, List.mem_singleton]
      intro hpn
      exact hnd.1 (hpn ▸ List.mem_map_of_mem Prod.fst hp)

theorem buildSchema_eq (ms : List (String × String)) (hnd : (ms.map Prod.fst).Nodup) :
    buildSchema ms = ms.map (fun p => (p.1, getBaseType p.2)) := by
  simpa using buildSchema_aux ms [] (by simp) hnd

/-- Parsing a canonical DDL declaring well-formed, distinctly named
columns yields exactly those columns, in declaration order, with each
type token passed through `getBaseType`. -/
theorem parse_ddl (cols : List (String × String)) (hgood : goodCols cols)
    (hnd : (cols.map Prod.fst).Nodup) :
    parseSqlSchema ⟨ddlChars cols⟩ = some (cols.map fun p => (p.1, getBaseType p.2)) := by
  have hsemi := semi_not_body hgood
  have h2 : searchTable (ddlChars cols) = some ("t", bodyChars cols) :=
    searchTable_pos0 (ddlChars_ne_nil cols) (tryTableMatch_ddl cols hsemi)
  have hdata : (⟨ddlChars cols⟩ : String).data = ddlChars cols := rfl
  rw [parseSqlSchema, hdata, h2, Option.map_some']
  rw [show bodyChars cols = ['\n', ' ', ' '] ++ entriesChars cols from rfl]
  rw [scan_entries cols hgood ['\n', ' ', ' '] (by decide)]
  rw [buildSchema_eq cols hnd]

end SalariesETL

namespace SalariesETL

/-! ### OrderedDict insertion facts -/

theorem fst_map_update (n v : String) :
    ∀ sch : List (String × String),
      (sch.map fun p => if p.1 = n then (p.1, v) else p).map Prod.fst
        = sch.map Prod.fst := by
  intro sch
  induction sch with
  | nil => rfl
  | cons p t ih =>
    simp only [List.map_cons, ih, List.cons.injEq, and_true]
    split <;> rfl

theorem lookup_update (n v : String) :
    ∀ sch : List (String × String), n ∈ sch.map Prod.fst →
      List.lookup n (sch.map fun p => if p.1 = n then (p.1, v) else p) = some v := by
  intro sch
  induction sch with
  | nil => intro h; simp at h
  | cons p t ih =>
    intro h
    obtain ⟨k, b⟩ := p
    by_cases hp : k = n
    · subst hp
      simp [List.lookup_cons]
    · have hmem : n ∈ t.map Prod.fst := by
        simp only [List.map_cons, List.mem_cons] at h
        rcases h with he | hm
        · exact absurd he.symm hp
        · exact hm
      have hif : (if (k, b).1 = n then ((k, b).1, v) else (k, b)) = (k, b) := by
        simp [hp]
      simp only [List.map_cons, hif, List.lookup_cons]
      rw [beq_false_of_ne (Ne.symm hp)]
      exact ih hmem

theorem odInsert_mem (sch : List (String × String)) (n v : String)
    (h : n ∈ sch.map Prod.fst) :
    (odInsert sch n v).map Prod.fst = sch.map Prod.fst ∧
    List.lookup n (odInsert sch n v) = some v := by
  rw [odInsert, if_pos h]
  exact ⟨fst_map_update n v sch, lookup_update n v sch h⟩

theorem odInsert_not_mem (sch : List (String × String)) (n v : String)
    (h : n ∉ sch.map Prod.fst) :
    odInsert sch n v = sch ++ [(n, v)] := by
  rw [odInsert, if_neg h]

end SalariesETL

namespace SalariesETL

/-! ### Claims -/

/-- C1 (counterexample): the claim "every raw `\x22\x22` or
`\x22Not Provided\x22` cell is null in the normalized output regardless
of the declared TypeClass, in particular also for BOOLEAN and TEXT
columns" is false: a raw empty-string cell in a BOOLEAN column comes
out as `false`, and a raw `"Not Provided"` cell in a TEXT column comes
out as the string `"None"` — neither is null. -/
theorem c1_counterexample :
    cleanData ⟨["active"], [[Value.str ""]]⟩ [("active", "BOOLEAN")]
      = some ⟨["active"], [[Value.bool false]]⟩ ∧
    cleanData ⟨["note"], [[Value.str "Not Provided"]]⟩ [("note", "TEXT")]
      = some ⟨["note"], [[Value.str "None"]]⟩ ∧
    Value.bool false ≠ Value.null ∧
    Value.str "None" ≠ Value.null := by
  refine ⟨by decide, by decide, by decide, by decide⟩

/-- C1 (amended): under the column-superset precondition, every cell
whose raw value is `""` or `"Not Provided"` is null in the normalized
output for every declared TypeClass EXCEPT BOOLEAN and TEXT; in a
BOOLEAN column such a cell becomes `false`, and in a TEXT column it
becomes the literal string `"None"`. -/
theorem c1_theorem (df : DataFrame) (schema : List (String × String))
    (sel out : DataFrame) (i j : Nat) (cd : String × String) (v : Value)
    (hsel : selectCols df (schema.map Prod.fst) = some sel)
    (hclean : cleanData df schema = some out)
    (hcd : schema[j]? = some cd)
    (hv : cellAt sel i j = some v)
    (hsent : v = Value.str "" ∨ v = Value.str "Not Provided") :
    (classify cd.2 ≠ TypeClass.BOOLEAN → classify cd.2 ≠ TypeClass.TEXT →
      cellAt out i j = some Value.null) ∧
    (classify cd.2 = TypeClass.BOOLEAN → cellAt out i j = some (Value.bool false)) ∧
    (classify cd.2 = TypeClass.TEXT → cellAt out i j = some (Value.str "None")) := by
  have hcell := cleanData_cellAt hsel hclean hcd hv
  have hrep : replaceSentinels v = Value.null := by
    rcases hsent with rfl | rfl
    · exact replaceSentinels_empty
    · exact replaceSentinels_np
  have key : cellPipe cd.2 v = maskNull (coerceValue cd.2 Value.null) := by
    rw [cellPipe, hrep]
  refine ⟨?_, ?_, ?_⟩
  · intro hb ht
    cases hcl : classify cd.2 with
    | INTEGER =>
      rw [hcell, key, (coerceValue_cases cd.2 Value.null).1 hcl]; rfl
    | FLOATING =>
      rw [hcell, key, (coerceValue_cases cd.2 Value.null).2.1 hcl]; rfl
    | BOOLEAN => exact absurd hcl hb
    | DATE =>
      rw [hcell, key, (coerceValue_cases cd.2 Value.null).2.2.2.1 hcl]; rfl
    | TEXT => exact absurd hcl ht
    | PASSTHROUGH =>
      rw [hcell, key, (coerceValue_cases cd.2 Value.null).2.2.2.2.2 hcl]; rfl
  · intro hcl
    rw [hcell, key, (coerceValue_cases cd.2 Value.null).2.2.1 hcl]; rfl
  · intro hcl
    rw [hcell, key, (coerceValue_cases cd.2 Value.null).2.2.2.2.1 hcl]; rfl

/-- C1 (witness): a concrete instantiation — schema `[("salary","INT")]`,
one row whose raw cell is `""`: the normalized cell is null. -/
theorem c1_witness :
    cellAt ⟨["salary"], [[Value.null]]⟩ 0 0 = some Value.null := by
  have h := c1_theorem ⟨["salary"], [[Value.str ""]]⟩ [("salary", "INT")]
      ⟨["salary"], [[Value.str ""]]⟩ ⟨["salary"], [[Value.null]]⟩ 0 0
      ("salary", "INT") (Value.str "")
      (by decide) (by decide) (by decide) (by decide) (Or.inl rfl)
  exact h.1 (by decide) (by decide)

/-- C3: for every BOOLEAN-classified column cell (after sentinel
replacement) the output is the host-truthiness boolean: null, the
empty string and the number 0 are falsy; every nonempty string —
including the literal `"false"` — and every nonzero number is truthy;
a raw empty-string cell yields `false` in the output (it first becomes
null through sentinel replacement, and `bool(None)` is `false`). -/
theorem c3_theorem (df : DataFrame) (schema : List (String × String))
    (sel out : DataFrame) (i j : Nat) (cd : String × String) (v : Value)
    (hsel : selectCols df (schema.map Prod.fst) = some sel)
    (hclean : cleanData df schema = some out)
    (hcd : schema[j]? = some cd)
    (hv : cellAt sel i j = some v)
    (hb : cd.2 = "BOOLEAN") :
    cellAt out i j = some (Value.bool (truthy (replaceSentinels v))) ∧
    truthy Value.null = false ∧
    truthy (Value.str "") = false ∧
    truthy (Value.num 0) = false ∧
    truthy (Value.str "false") = true ∧
    (∀ s : String, s ≠ "" → truthy (Value.str s) = true) ∧
    (∀ q : Rat, q ≠ 0 → truthy (Value.num q) = true) ∧
    (v = Value.str "" → cellAt out i j = some (Value.bool false)) := by
  have hcell := cleanData_cellAt hsel hclean hcd hv
  rw [hb, cellPipe_boolean] at hcell
  refine ⟨hcell, rfl, by decide, by decide, by decide, ?_, ?_, ?_⟩
  · intro s hs; simp [truthy, hs]
  · intro q hq; simp [truthy, hq]
  · rintro rfl
    rw [hcell]
    rfl

/-- C3 (witness): a concrete instantiation — a BOOLEAN column whose
raw cell is the string `"false"` comes out as `true`. -/
theorem c3_witness :
    cellAt ⟨["active"], [[Value.bool true]]⟩ 0 0
      = some (Value.bool (truthy (replaceSentinels (Value.str "false")))) :=
  by
  have h := c3_theorem ⟨["active"], [[Value.str "false"]]⟩ [("active", "BOOLEAN")]
      ⟨["active"], [[Value.str "false"]]⟩ ⟨["active"], [[Value.bool true]]⟩ 0 0
      ("active", "BOOLEAN") (Value.str "false")
      (by decide) (by decide) (by decide) (by decide) rfl
  exact h.1

/-- C6 (counterexample): the claim "in TEXT columns a null/missing
cell stays null and is never stringified into a literal such as
`\x22None\x22`" is false: `astype(str)` stringifies a null cell to the
string `"None"`, which survives to the output (it is not null). -/
theorem c6_counterexample :
    cleanData ⟨["name"], [[Value.null]]⟩ [("name", "TEXT")]
      = some ⟨["name"], [[Value.str "None"]]⟩ ∧
    Value.str "None" ≠ Value.null := by
  refine ⟨by decide, by decide⟩

/-- C6 (amended): for every TEXT-classified column, every non-null
cell is converted to its textual representation; a null cell does NOT
stay null — it is stringified to the literal string `"None"` (every
output cell of a TEXT column is a string, hence non-null). -/
theorem c6_theorem (df : DataFrame) (schema : List (String × String))
    (sel out : DataFrame) (i j : Nat) (cd : String × String) (v : Value)
    (hsel : selectCols df (schema.map Prod.fst) = some sel)
    (hclean : cleanData df schema = some out)
    (hcd : schema[j]? = some cd)
    (hv : cellAt sel i j = some v)
    (ht : classify cd.2 = TypeClass.TEXT) :
    cellAt out i j = some (strCoerce (replaceSentinels v)) ∧
    strCoerce Value.null = Value.str "None" ∧
    (∀ u : Value, ∃ s, strCoerce u = Value.str s) ∧
    (v = Value.null → cellAt out i j = some (Value.str "None")) := by
  have hcell := cleanData_cellAt hsel hclean hcd hv
  have hco := (coerceValue_cases cd.2 (replaceSentinels v)).2.2.2.2.1 ht
  have hpipe : cellPipe cd.2 v = strCoerce (replaceSentinels v) := by
    rw [cellPipe, hco]
    obtain ⟨s, hs⟩ := strCoerce_is_str (replaceSentinels v)
    rw [hs]
    exact maskNull_ne (by intro hh; cases hh)
  rw [hpipe] at hcell
  refine ⟨hcell, rfl, strCoerce_is_str, ?_⟩
  rintro rfl
  rw [hcell]
  rfl

/-- C6 (witness): a concrete instantiation — a TEXT column with a
number cell is stringified. -/
theorem c6_witness :
    cellAt ⟨["name"], [[Value.str "Bob"]]⟩ 0 0
      = some (strCoerce (replaceSentinels (Value.str "Bob"))) :=
  by
  have h := c6_theorem ⟨["name"], [[Value.str "Bob"]]⟩ [("name", "TEXT")]
      ⟨["name"], [[Value.str "Bob"]]⟩ ⟨["name"], [[Value.str "Bob"]]⟩ 0 0
      ("name", "TEXT") (Value.str "Bob")
      (by decide) (by decide) (by decide) (by decide) (by decide)
  exact h.1

end SalariesETL

namespace SalariesETL

/-- C2 (counterexample): the claim "a parenthesized parameter attached
with no space does not change the classification of the base keyword"
is false: for `salary NUMERIC(10,2)` the parser records the token
`"NUMERIC(10"` (the regex class stops at the comma, and the
space-split base-type step strips nothing), and `clean_data`'s chain
classifies that token as PASSTHROUGH, not FLOATING as the base keyword
`NUMERIC` would. -/
theorem c2_counterexample :
    parseSqlSchema "CREATE TABLE t (\n  salary NUMERIC(10,2)\n);"
      = some [("salary", "NUMERIC(10")] ∧
    classify "NUMERIC(10" = TypeClass.PASSTHROUGH ∧
    classify "NUMERIC" = TypeClass.FLOATING ∧
    TypeClass.PASSTHROUGH ≠ TypeClass.FLOATING := by
  refine ⟨by decide, by decide, by decide, by decide⟩

/-- C2 (amended): classification uses the recorded token by exact
string match — INT/INTEGER/BIGINT map to the INTEGER class, exactly
FLOAT/NUMERIC/DECIMAL to FLOATING, exactly BOOLEAN/DATE/TEXT to their
classes, and every other token to PASSTHROUGH.  A parenthesized
size/precision suffix attached with no space stays inside the
recorded token (truncated at the first comma), so any such column is
classified PASSTHROUGH rather than by its base keyword. -/
theorem c2_theorem :
    (∀ t : String, '(' ∈ t.data → classify t = TypeClass.PASSTHROUGH) ∧
    (∀ t : String, classify t = TypeClass.INTEGER ↔
      (t = "INT" ∨ t = "INTEGER" ∨ t = "BIGINT")) ∧
    (∀ t : String, classify t = TypeClass.FLOATING ↔
      (t = "FLOAT" ∨ t = "NUMERIC" ∨ t = "DECIMAL")) ∧
    (∀ t : String, classify t = TypeClass.BOOLEAN ↔ t = "BOOLEAN") ∧
    (∀ t : String, classify t = TypeClass.DATE ↔ t = "DATE") ∧
    (∀ t : String, classify t = TypeClass.TEXT ↔ t = "TEXT") ∧
    parseSqlSchema "CREATE TABLE t (\n  salary NUMERIC(10,2)\n);"
      = some [("salary", "NUMERIC(10")] := by
  refine ⟨?_, ?_, ?_, ?_, ?_, ?_, by decide⟩
  · intro t h
    have h1 : ¬(t = "INT" ∨ t = "INTEGER" ∨ t = "BIGINT") := by
      rintro (rfl | rfl | rfl) <;> exact absurd h (by decide)
    have h2 : ¬(t = "FLOAT" ∨ t = "NUMERIC" ∨ t = "DECIMAL") := by
      rintro (rfl | rfl | rfl) <;> exact absurd h (by decide)
    have h3 : ¬(t = "BOOLEAN") := by rintro rfl; exact absurd h (by decide)
    have h4 : ¬(t = "DATE") := by rintro rfl; exact absurd h (by decide)
    have h5 : ¬(t = "TEXT") := by rintro rfl; exact absurd h (by decide)
    rw [classify, if_neg h1, if_neg h2, if_neg h3, if_neg h4, if_neg h5]
  · intro t
    rw [classify]
    split_ifs with hA hB hC hD hE
    · exact iff_of_true rfl hA
    · exact iff_of_false (by simp) hA
    · exact iff_of_false (by simp) hA
    · exact iff_of_false (by simp) hA
    · exact iff_of_false (by simp) hA
    · exact iff_of_false (by simp) hA
  · intro t
    rw [classify]
    split_ifs with hA hB hC hD hE
    · exact iff_of_false (by simp)
        (by rintro (rfl | rfl | rfl) <;> exact absurd hA (by decide))
    · exact iff_of_true rfl hB
    · exact iff_of_false (by simp) hB
    · exact iff_of_false (by simp) hB
    · exact iff_of_false (by simp) hB
    · exact iff_of_false (by simp) hB
  · intro t
    rw [classify]
    split_ifs with hA hB hC hD hE
    · exact iff_of_false (by simp) (by rintro rfl; exact absurd hA (by decide))
    · exact iff_of_false (by simp) (by rintro rfl; exact absurd hB (by decide))
    · exact iff_of_true rfl hC
    · exact iff_of_false (by simp) hC
    · exact iff_of_false (by simp) hC
    · exact iff_of_false (by simp) hC
  · intro t
    rw [classify]
    split_ifs with hA hB hC hD hE
    · exact iff_of_false (by simp) (by rintro rfl; exact absurd hA (by decide))
    · exact iff_of_false (by simp) (by rintro rfl; exact absurd hB (by decide))
    · exact iff_of_false (by simp) (by rintro rfl; exact absurd hC (by decide))
    · exact iff_of_true rfl hD
    · exact iff_of_false (by simp) hD
    · exact iff_of_false (by simp) hD
  · intro t
    rw [classify]
    split_ifs with hA hB hC hD hE
    · exact iff_of_false (by simp) (by rintro rfl; exact absurd hA (by decide))
    · exact iff_of_false (by simp) (by rintro rfl; exact absurd hB (by decide))
    · exact iff_of_false (by simp) (by rintro rfl; exact absurd hC (by decide))
    · exact iff_of_false (by simp) (by rintro rfl; exact absurd hD (by decide))
    · exact iff_of_true rfl hE
    · exact iff_of_false (by simp) hE

/-- C2 (witness): the theorem applied at the recorded token
`"NUMERIC(10"`, whose parenthesis forces PASSTHROUGH. -/
theorem c2_witness : classify "NUMERIC(10" = TypeClass.PASSTHROUGH :=
  c2_theorem.1 "NUMERIC(10" (by decide)

/-- C4 (counterexample): the claim "a DDL declaring the same column
name twice makes schema parsing fail" is false: parsing
`CREATE TABLE t (\n  id INT,\n  id TEXT\n);` succeeds, silently
overwriting the earlier declaration (the recorded schema is
`[("id", "TEXT")]`). -/
theorem c4_counterexample :
    parseSqlSchema "CREATE TABLE t (\n  id INT,\n  id TEXT\n);"
      = some [("id", "TEXT")] ∧
    (parseSqlSchema "CREATE TABLE t (\n  id INT,\n  id TEXT\n);").isSome = true := by
  refine ⟨by decide, by decide⟩

/-- C4 (amended): schema parsing never fails on duplicate column
names; the dict insertion silently overwrites — re-inserting an
existing key keeps the key sequence (hence the first occurrence's
position) and replaces the stored type with the later one, while a
fresh key is appended; on the concrete duplicate DDL the parser
succeeds with the later type. -/
theorem c4_theorem :
    (∀ (sch : List (String × String)) (n v : String), n ∈ sch.map Prod.fst →
      (odInsert sch n v).map Prod.fst = sch.map Prod.fst ∧
      List.lookup n (odInsert sch n v) = some v) ∧
    (∀ (sch : List (String × String)) (n v : String), n ∉ sch.map Prod.fst →
      odInsert sch n v = sch ++ [(n, v)]) ∧
    parseSqlSchema "CREATE TABLE t (\n  id INT,\n  id TEXT\n);"
      = some [("id", "TEXT")] := by
  exact ⟨odInsert_mem, odInsert_not_mem, by decide⟩

/-- C4 (witness): the theorem applied at a concrete duplicate
insertion. -/
theorem c4_witness :
    (odInsert [("id", "INT")] "id" "TEXT").map Prod.fst
        = [("id", "INT")].map Prod.fst ∧
    List.lookup "id" (odInsert [("id", "INT")] "id" "TEXT") = some "TEXT" :=
  c4_theorem.1 [("id", "INT")] "id" "TEXT" (by decide)

/-- C5 (counterexample): the claim "parse_schema records one entry for
every comma-separated definition, including when several definitions
share one line of text" is false: the body line `id INT, name TEXT`
holds two comma-separated definitions, but the MULTILINE-anchored
column pattern matches once per line, so only `("id", "INT")` is
recorded. -/
theorem c5_counterexample :
    parseSqlSchema "CREATE TABLE t (\n  id INT, name TEXT\n);"
      = some [("id", "INT")] ∧
    (parseSqlSchema "CREATE TABLE t (\n  id INT, name TEXT\n);").map List.length
      ≠ some 2 := by
  refine ⟨by decide, by decide⟩

/-- C5 (amended): the parser records one (name, type) entry per LINE
of the body (the first `<identifier> <type>` pair at each line start):
a canonical DDL with one comma-separated definition per line yields
exactly one entry per definition, while several comma-separated
definitions on one line yield only the first. -/
theorem c5_theorem :
    (∀ cols : List (String × String), goodCols cols → (cols.map Prod.fst).Nodup →
      (parseSqlSchema ⟨ddlChars cols⟩).map List.length = some cols.length) ∧
    parseSqlSchema "CREATE TABLE t (\n  id INT, name TEXT\n);"
      = some [("id", "INT")] := by
  refine ⟨?_, by decide⟩
  intro cols hgood hnd
  rw [parse_ddl cols hgood hnd, Option.map_some', List.length_map]

/-- C5 (witness): the theorem applied at a concrete two-column,
one-definition-per-line DDL. -/
theorem c5_witness :
    (parseSqlSchema ⟨ddlChars [("id", "INT"), ("name", "TEXT")]⟩).map List.length
      = some 2 :=
  c5_theorem.1 [("id", "INT"), ("name", "TEXT")] (by decide) (by decide)

/-- C7: for a DDL declaring well-formed, distinctly named columns
`[c1, ..., cn]` in order (one definition per line, as the data model's
unique-names invariant and the canonical DDL layout prescribe),
`parse_schema` returns exactly those columns in declaration order
(types passed through the base-type normalisation). -/
theorem c7_theorem (cols : List (String × String)) (hgood : goodCols cols)
    (hnd : (cols.map Prod.fst).Nodup) :
    parseSqlSchema ⟨ddlChars cols⟩
      = some (cols.map fun p => (p.1, getBaseType p.2)) ∧
    (parseSqlSchema ⟨ddlChars cols⟩).map (fun s => s.map Prod.fst)
      = some (cols.map Prod.fst) := by
  have h := parse_ddl cols hgood hnd
  refine ⟨h, ?_⟩
  rw [h, Option.map_some', List.map_map]
  rfl

/-- C7 (witness): the theorem applied at the concrete declaration
order `id, name, salary`. -/
theorem c7_witness :
    parseSqlSchema ⟨ddlChars [("id", "INT"), ("name", "TEXT"), ("salary", "NUMERIC")]⟩
      = some [("id", "INT"), ("name", "TEXT"), ("salary", "NUMERIC")] :=
  by
  have h := c7_theorem [("id", "INT"), ("name", "TEXT"), ("salary", "NUMERIC")]
      (by decide) (by decide)
  exact h.1.trans (by decide)

end SalariesETL

namespace SalariesETL

/-- C8: whenever `normalize` succeeds (the column-superset
precondition holds), the output has exactly as many rows as the input,
and row `i` of the output is computed from row `i` of the input (the
output rows are the image of the input rows under one per-row
function, so no row is dropped, added or reordered). -/
theorem c8_theorem (df : DataFrame) (schema : List (String × String)) (out : DataFrame)
    (h : cleanData df schema = some out) :
    out.rows.length = df.rows.length ∧
    ∃ g : List Value → List Value, out.rows = df.rows.map g := by
  cases hsel : selectCols df (schema.map Prod.fst) with
  | none => rw [cleanData, hsel] at h; cases h
  | some sel =>
    have h2 := cleanData_some hsel
    rw [h] at h2
    have hout := Option.some.inj h2
    obtain ⟨idxs, hrows⟩ := selectCols_rows hsel
    have hmap : out.rows = df.rows.map fun r =>
        List.zipWith (fun (cd : String × String) v => cellPipe cd.2 v) schema
          (idxs.map fun i => r.getD i Value.null) := by
      rw [hout]
      show (sel.rows.map fun r =>
        List.zipWith (fun (cd : String × String) v => cellPipe cd.2 v) schema r) = _
      rw [hrows, List.map_map]
      rfl
    constructor
    · rw [hmap, List.length_map]
    · exact ⟨_, hmap⟩

/-- C8 (witness): the theorem applied at a concrete one-row frame. -/
theorem c8_witness :
    (DataFrame.mk ["a"] [[Value.num 1]]).rows.length
        = (DataFrame.mk ["a"] [[Value.num 1]]).rows.length ∧
    ∃ g : List Value → List Value,
      (DataFrame.mk ["a"] [[Value.num 1]]).rows
        = (DataFrame.mk ["a"] [[Value.num 1]]).rows.map g :=
  c8_theorem ⟨["a"], [[Value.num 1]]⟩ [("a", "INT")] ⟨["a"], [[Value.num 1]]⟩
    (by decide)

/-- C9: `normalize` fails (with the KeyError the spec labels
`MissingColumnError`) precisely when some schema column name is absent
from the raw header; extra raw columns never cause a failure, and on
success the output's columns are exactly the schema's columns in
schema order (so raw columns outside the schema never appear). -/
theorem c9_theorem (df : DataFrame) (schema : List (String × String)) :
    (cleanData df schema = none ↔ ∃ c ∈ schema.map Prod.fst, c ∉ df.header) ∧
    (∀ out, cleanData df schema = some out → out.header = schema.map Prod.fst) := by
  constructor
  · rw [cleanData, Option.map_eq_none']
    exact selectCols_none_iff df _
  · intro out h
    cases hsel : selectCols df (schema.map Prod.fst) with
    | none => rw [cleanData, hsel] at h; cases h
    | some sel =>
      have h2 := cleanData_some hsel
      rw [h] at h2
      have hout := Option.some.inj h2
      have hh := selectCols_header hsel
      rw [hout]
      exact hh

/-- C9 (witness): the theorem applied at schema `[("salary","INTEGER")]`
and a raw frame whose header is only `["name"]`: normalization fails. -/
theorem c9_witness :
    cleanData ⟨["name"], []⟩ [("salary", "INTEGER")] = none := by
  have h := c9_theorem ⟨["name"], []⟩ [("salary", "INTEGER")]
  exact h.1.mpr ⟨"salary", by decide, by decide⟩

/-- C10: `clean_data` never mutates its input frame — in the heap
model the caller's frame object is untouched by the call (the
`.copy()` severs aliasing, so the in-place replace and the column
assignments hit only the fresh copy), and the returned object is a
fresh frame holding exactly the pure `cleanData` result. -/
theorem c10_theorem (h : Heap) (r : Nat) (schema : List (String × String))
    (hr : r < h.frames.length) :
    (cleanDataHeap h r schema).1.getF r = h.getF r ∧
    (cleanDataHeap h r schema).2.map (fun q => (cleanDataHeap h r schema).1.getF q)
      = cleanData (h.getF r) schema := by
  cases hsel : selectCols (h.getF r) (schema.map Prod.fst) with
  | none =>
    refine ⟨?_, ?_⟩ <;> simp [cleanDataHeap, hsel, cleanData]
  | some sel =>
    simp only [cleanDataHeap, hsel]
    simp only [Heap.alloc, Heap.setF, Heap.getF]
    rw [getD_append_len sel ⟨[], []⟩ h.frames]
    rw [getD_set_eq (replaceFrame sel) ⟨[], []⟩ (h.frames ++ [sel]) h.frames.length
      (by simp)]
    rw [getD_set_eq (coerceFrame schema (replaceFrame sel)) ⟨[], []⟩
      ((h.frames ++ [sel]).set h.frames.length (replaceFrame sel)) h.frames.length
      (by simp)]
    constructor
    · rw [getD_append_lt _ _ _ r (by simp; omega)]
      rw [getD_set_ne _ _ _ h.frames.length r (by omega)]
      rw [getD_set_ne _ _ _ h.frames.length r (by omega)]
      rw [getD_append_lt _ _ _ r hr]
    · have hsel2 : selectCols (h.frames.getD r ⟨[], []⟩) (List.map Prod.fst schema)
          = some sel := hsel
      rw [Option.map_some']
      rw [getD_append_len _ ⟨[], []⟩ _]
      rw [cleanData, hsel2]
      rfl

/-- C10 (witness): the theorem applied at a concrete one-frame heap. -/
theorem c10_witness :
    (cleanDataHeap ⟨[⟨["a"], [[Value.str "x"]]⟩]⟩ 0 [("a", "TEXT")]).1.getF 0
        = (Heap.mk [⟨["a"], [[Value.str "x"]]⟩]).getF 0 ∧
    (cleanDataHeap ⟨[⟨["a"], [[Value.str "x"]]⟩]⟩ 0 [("a", "TEXT")]).2.map
        (fun q => (cleanDataHeap ⟨[⟨["a"], [[Value.str "x"]]⟩]⟩ 0 [("a", "TEXT")]).1.getF q)
      = cleanData ((Heap.mk [⟨["a"], [[Value.str "x"]]⟩]).getF 0) [("a", "TEXT")] :=
  c10_theorem ⟨[⟨["a"], [[Value.str "x"]]⟩]⟩ 0 [("a", "TEXT")] (by decide)

end SalariesETL
